import Mathlib

/-!
Verification of the poker-wars tournament orchestrator (TypeScript backend).

The definitions below are shallow embeddings of the backend source:
* `be/src/ai-agent.ts` — `validateDecision`, `createAIDecision` (fallback path);
* `be/src/game.ts` — `runGameLoop` (raise cap, fold-out/showdown resolution,
  elimination), `calculateWinnings`, `checkBlindIncrease`, `updateGameState`,
  `resumeGame`.

Chip amounts proposed by agents and bet bounds are modelled as `Int`
(JavaScript numbers that may be negative or out of range); pot sizes and
stacks are `Nat`.  `undefined` optional fields are `Option`.
-/

namespace PokerWars

/-- `PokerAction` from `be/src/types.ts`:
`"fold" | "check" | "call" | "bet" | "raise"`. -/
inductive PokerAction where
  | fold
  | check
  | call
  | bet
  | raise
deriving DecidableEq, Repr

/-- String form of an action, as it appears interpolated into template
strings in the source. -/
def PokerAction.toName : PokerAction → String
  | .fold => "fold"
  | .check => "check"
  | .call => "call"
  | .bet => "bet"
  | .raise => "raise"

/-- `AIDecision` from `be/src/types.ts`: action, optional amount, reasoning. -/
structure AIDecision where
  action : PokerAction
  amount : Option Int
  reasoning : String
deriving DecidableEq, Repr

/-- The `legalActions` argument of `validateDecision` in `be/src/ai-agent.ts`:
`{ actions: PokerAction[]; minBet?: number; maxBet?: number }`. -/
structure LegalActionsInfo where
  actions : List PokerAction
  minBet : Option Int
  maxBet : Option Int
deriving DecidableEq, Repr

/-- `validateDecision` from `be/src/ai-agent.ts` (lines 292–342).

If the proposed action is not in the legal set, the first legal action is
substituted (`legalActions.actions[0] ?? "fold"`), its amount set to
`minBet` when the substitute is bet/raise and `minBet` is defined, and a
note is appended to the reasoning.  Otherwise, for bet/raise, a missing
amount defaults to `minBet` when defined, an amount below a defined
`minBet` is raised to it, an amount above a defined `maxBet` is lowered to
it; in every other case the decision is returned unchanged. -/
def validateDecision (decision : AIDecision) (legalActions : LegalActionsInfo) :
    AIDecision :=
  if decision.action ∉ legalActions.actions then
    let fallbackAction := legalActions.actions.headD PokerAction.fold
    { action := fallbackAction
      amount :=
        if (fallbackAction = PokerAction.bet ∨ fallbackAction = PokerAction.raise)
            ∧ legalActions.minBet.isSome then
          legalActions.minBet
        else
          none
      reasoning :=
        decision.reasoning ++ " [Action " ++ decision.action.toName ++
          " was invalid, using " ++ fallbackAction.toName ++ "]" }
  else if decision.action = PokerAction.bet ∨ decision.action = PokerAction.raise then
    match decision.amount with
    | none =>
        if legalActions.minBet.isSome then
          { decision with amount := legalActions.minBet }
        else
          decision
    | some a =>
        match legalActions.minBet with
        | some m =>
            if a < m then
              { decision with amount := some m }
            else
              match legalActions.maxBet with
              | some mx => if a > mx then { decision with amount := some mx } else decision
              | none => decision
        | none =>
            match legalActions.maxBet with
            | some mx => if a > mx then { decision with amount := some mx } else decision
            | none => decision
  else
    decision

/-! ## Decision pipeline: `createAIDecision` (`be/src/ai-agent.ts`, lines 113–289)

The external agent call (`generateText` over the AI gateway) is modelled as
an `AgentResult`: either a structured `{action, amount, reasoning}` output,
or a failure (timeout, malformed/absent structured output, thrown
exception) carrying the error message.  The decision-log side effect
(`storage.appendLog`) is modelled by threading an explicit log list; the
modelled log entry keeps the fields relevant to the decision
(`handNumber`, `playerIndex`, the final decision). -/

/-- Outcome of the external agent call in `createAIDecision`: either the
structured output (`result.output`, with `amount: z.number().nullable()`
mapped through `output.amount ?? undefined`) or a caught failure. -/
inductive AgentResult where
  | ok (action : PokerAction) (amount : Option Int) (reasoning : String)
  | failure (message : String)
deriving DecidableEq, Repr

/-- The fields of `AIContext` (`be/src/types.ts`) that `createAIDecision`'s
control flow reads: the legal action set (used by the fallback branch) and
the hand number (recorded in the log entry).  The remaining context fields
feed only the prompt text sent to the agent, which is not modelled. -/
structure AIContext where
  legalActions : LegalActionsInfo
  handNumber : Nat
deriving DecidableEq, Repr

/-- A `"decision"`-type entry of the append-only decision log, restricted to
the modelled fields. -/
structure AILogEntry where
  handNumber : Nat
  playerIndex : Nat
  decision : AIDecision
deriving DecidableEq, Repr

/-- `createAIDecision` from `be/src/ai-agent.ts` (lines 113–289), as a pure
function of the agent outcome.  On success the structured output becomes
the decision and is logged; on any failure the catch block returns the
deterministic fallback — `check` when `"check"` is in
`context.legalActions.actions`, `fold` otherwise, with the error message
appended to the fallback tag — and logs it.  Both branches return
normally. -/
def createAIDecision (playerIndex : Nat) (context : AIContext)
    (agentResult : AgentResult) (log : List AILogEntry) :
    AIDecision × List AILogEntry :=
  match agentResult with
  | .ok action amount reasoning =>
      let decision : AIDecision := { action, amount, reasoning }
      (decision,
        log ++ [{ handNumber := context.handNumber, playerIndex, decision }])
  | .failure message =>
      let fallbackDecision : AIDecision :=
        { action :=
            if PokerAction.check ∈ context.legalActions.actions then
              PokerAction.check
            else
              PokerAction.fold
          amount := none
          reasoning := "Error occurred, falling back to safe action: " ++ message }
      (fallbackDecision,
        log ++ [{ handNumber := context.handNumber, playerIndex,
                  decision := fallbackDecision }])

/-! ## Hand conductor: raise cap (`be/src/game.ts`, lines 459–587)

One iteration of the betting loop body for an acting seat: compute
`raiseCapReached`, validate the agent's decision, forcibly downgrade a
validated bet/raise to call/check when the cap is reached, bump the
per-round raise counter, and submit the resulting action to the engine via
`actionTaken`.  `runRound` chains iterations within one betting round;
`runHandRounds` models the reset of the counter to 0 at each
`endBettingRound` by starting every round at 0. -/

/-- `MAX_RAISES_PER_ROUND` from `runGameLoop` (line 460). -/
def MAX_RAISES_PER_ROUND : Nat := 2

/-- The betting-loop body of `runGameLoop` (lines 489–533) for one acting
seat, given the current per-round raise counter, the engine's legal
actions, and the agent's raw decision.  Returns the decision whose action
is submitted to `table.actionTaken`, paired with the updated raise
counter. -/
def conductorStep (raisesThisRound : Nat) (legal : LegalActionsInfo)
    (decision : AIDecision) : AIDecision × Nat :=
  let raiseCapReached := MAX_RAISES_PER_ROUND ≤ raisesThisRound
  let validated := validateDecision decision legal
  let forced :=
    if raiseCapReached ∧
        (validated.action = PokerAction.raise ∨ validated.action = PokerAction.bet) then
      { action :=
          if PokerAction.call ∈ legal.actions then PokerAction.call
          else PokerAction.check
        amount := none
        reasoning := validated.reasoning ++ " [Raise cap reached - forced to call]" }
    else
      validated
  let raises :=
    if forced.action = PokerAction.raise ∨ forced.action = PokerAction.bet then
      raisesThisRound + 1
    else
      raisesThisRound
  (forced, raises)

/-- Trace of one betting round: for each acting seat (legal set, raw agent
decision), the action submitted to the engine and the raise counter in
force when the seat acted. -/
def runRound (raisesThisRound : Nat) :
    List (LegalActionsInfo × AIDecision) → List (PokerAction × Nat)
  | [] => []
  | (legal, decision) :: rest =>
      let step := conductorStep raisesThisRound legal decision
      (step.1.action, raisesThisRound) :: runRound step.2 rest

/-- Traces of the successive betting rounds of a hand; the counter is reset
to 0 at each round boundary (`raisesThisRound = 0` after
`endBettingRound`, line 566). -/
def runHandRounds (rounds : List (List (LegalActionsInfo × AIDecision))) :
    List (List (PokerAction × Nat)) :=
  rounds.map (runRound 0)

/-! ## Pots, winnings and hand resolution (`be/src/game.ts`) -/

/-- `PotInfo` from `be/src/types.ts`: pot size and the seats eligible to
win it (as reported by the engine when the pot was captured). -/
structure PotInfo where
  size : Nat
  eligiblePlayers : List Nat
deriving DecidableEq, Repr

/-- `calculateWinnings` from `be/src/game.ts` (lines 918–925): the sum,
over the captured pots whose eligible set contains the player, of
`Math.floor(pot.size / pot.eligiblePlayers.length)`. -/
def calculateWinnings (pots : List PotInfo) (playerIndex : Nat) : Nat :=
  (pots.filter fun pot => playerIndex ∈ pot.eligiblePlayers).foldl
    (fun sum pot => sum + pot.size / pot.eligiblePlayers.length) 0

/-- `totalPot` as computed in the fold-out branch of `runGameLoop`
(line 604): `trackedPots.reduce((sum, pot) => sum + pot.size, 0)`. -/
def totalPot (pots : List PotInfo) : Nat :=
  pots.foldl (fun sum pot => sum + pot.size) 0

/-- `HandResult` from `be/src/types.ts`, restricted to the modelled fields
(the winning-card lists are dropped). -/
structure HandResult where
  playerIndex : Nat
  handRanking : Nat
  handDescription : String
  amountWon : Nat
deriving DecidableEq, Repr

/-- `getHandRankingName` from `be/src/game.ts` (lines 901–915). -/
def getHandRankingName (ranking : Nat) : String :=
  ["High Card", "Pair", "Two Pair", "Three of a Kind", "Straight", "Flush",
   "Full House", "Four of a Kind", "Straight Flush",
   "Royal Flush"].getD ranking "Unknown"

/-- The winners record written to the hand history on a fold-out win
(`runGameLoop` lines 600–620 and 673–679): a single synthetic entry for
the last remaining seat, ranking 0, description `"Fold Win"`, and
`amountWon := calculateWinnings(trackedPots, seatIndex)`. -/
def foldOutWinners (trackedPots : List PotInfo) (winnerIdx : Nat) :
    List HandResult :=
  [{ playerIndex := winnerIdx
     handRanking := 0
     handDescription := "Fold Win"
     amountWon := calculateWinnings trackedPots winnerIdx }]

/-- The winners record written to the hand history on a showdown
(`runGameLoop` lines 622–632 and 673–679): the flattened captured
`winners()` entries, given here as `(seatIndex, ranking)` pairs, each with
`amountWon := calculateWinnings(trackedPots, seatIndex)`. -/
def showdownWinners (trackedPots : List PotInfo)
    (capturedWinners : List (Nat × Nat)) : List HandResult :=
  capturedWinners.map fun w =>
    { playerIndex := w.1
      handRanking := w.2
      handDescription := getHandRankingName w.2
      amountWon := calculateWinnings trackedPots w.1 }

/-! ## Blind escalation (`be/src/game.ts`) -/

/-- `BlindLevel` from `be/src/types.ts` (config schema: all fields
positive; at least one level in `blindStructure`). -/
structure BlindLevel where
  smallBlind : Nat
  bigBlind : Nat
  handsUntilIncrease : Int
deriving DecidableEq, Repr

/-- `PlayerConfig` from `be/src/types.ts`. -/
structure PlayerConfig where
  index : Nat
  model : String
deriving DecidableEq, Repr

/-- `GameConfig` from `be/src/types.ts`. -/
structure GameConfig where
  initialChips : Nat
  blindStructure : List BlindLevel
  players : List PlayerConfig
deriving DecidableEq, Repr

/-- `BlindState` from `be/src/types.ts`. -/
structure BlindState where
  smallBlind : Nat
  bigBlind : Nat
  currentLevel : Nat
  handsUntilNext : Int
deriving DecidableEq, Repr

/-- The blind state created by `startGame` (lines 210–215): level 0 of the
configured structure.  `blindStructure[0]!` is modelled with `headD`
(the config schema guarantees a non-empty structure). -/
def initialBlindState (config : GameConfig) : BlindState :=
  let firstBlind := config.blindStructure.headD ⟨0, 0, 0⟩
  { smallBlind := firstBlind.smallBlind
    bigBlind := firstBlind.bigBlind
    currentLevel := 0
    handsUntilNext := firstBlind.handsUntilIncrease }

/-- The end-of-hand blind update in `runGameLoop` (lines 722–726):
decrement `handsUntilNext`. -/
def endOfHandBlindUpdate (blindState : BlindState) : BlindState :=
  { blindState with handsUntilNext := blindState.handsUntilNext - 1 }

/-- `checkBlindIncrease` from `be/src/game.ts` (lines 816–845).  When
`handsUntilNext > 0` the state is returned unchanged; otherwise, if the
next level index is past the end of the structure the state stays at its
level with `handsUntilNext` reset to the last level's
`handsUntilIncrease` (`blindStructure[blindStructure.length - 1]!`,
modelled with `getLastD`; the config schema guarantees non-emptiness);
otherwise the state advances to the next configured level. -/
def checkBlindIncrease (config : GameConfig) (currentBlinds : BlindState) :
    BlindState :=
  if 0 < currentBlinds.handsUntilNext then
    currentBlinds
  else
    let nextLevel := currentBlinds.currentLevel + 1
    if config.blindStructure.length ≤ nextLevel then
      let lastBlind := config.blindStructure.getLastD ⟨0, 0, 0⟩
      { currentBlinds with handsUntilNext := lastBlind.handsUntilIncrease }
    else
      let newBlind := config.blindStructure.getD nextLevel ⟨0, 0, 0⟩
      { smallBlind := newBlind.smallBlind
        bigBlind := newBlind.bigBlind
        currentLevel := nextLevel
        handsUntilNext := newBlind.handsUntilIncrease }

/-! ## Tournament state, resume, elimination (`be/src/game.ts`) -/

/-- `GameStatus` from `be/src/types.ts`. -/
inductive GameStatus where
  | waiting
  | in_progress
  | completed
deriving DecidableEq, Repr

/-- `PlayerState` from `be/src/types.ts`. -/
structure PlayerState where
  index : Nat
  model : String
  stack : Nat
  totalChips : Nat
  betSize : Nat
  isEliminated : Bool
  isActive : Bool
deriving DecidableEq, Repr

/-- `GameState` from `be/src/types.ts` (run id and timestamps dropped;
`handInProgress?: boolean` is an `Option Bool`, absent meaning falsy). -/
structure GameState where
  status : GameStatus
  currentHandNumber : Nat
  players : List PlayerState
  blinds : BlindState
  buttonPosition : Nat
  winner : Option Nat
  handInProgress : Option Bool
deriving DecidableEq, Repr

/-- The observable effect of a successful `resumeGame` call: the
`sitDown(index, buyIn)` calls it issues, the blinds the new table is
created with, and the hand number the game loop is started at. -/
structure ResumeOutcome where
  seatedPlayers : List (Nat × Nat)
  tableSmallBlind : Nat
  tableBigBlind : Nat
  startingHand : Nat
deriving DecidableEq, Repr

/-- `resumeGame` from `be/src/game.ts` (lines 288–336).  Rejects (returns
`none`) when a game is already running or the persisted state is missing
or not `in_progress`; otherwise creates a table with the persisted blinds,
seats every player with `!isEliminated && stack > 0` at their persisted
stack, and starts the loop at `currentHandNumber` when `handInProgress`
is truthy, else at `currentHandNumber + 1`. -/
def resumeGame (isGameRunning : Bool) (state : Option GameState) :
    Option ResumeOutcome :=
  if isGameRunning then
    none
  else
    match state with
    | none => none
    | some s =>
        if s.status ≠ GameStatus.in_progress then
          none
        else
          some
            { seatedPlayers :=
                ((s.players.filter fun p =>
                    !p.isEliminated && decide (0 < p.stack)).map
                  fun p => (p.index, p.stack))
              tableSmallBlind := s.blinds.smallBlind
              tableBigBlind := s.blinds.bigBlind
              startingHand :=
                if s.handInProgress.getD false then s.currentHandNumber
                else s.currentHandNumber + 1 }

/-- `PlayerSeat` from `be/src/types.ts` (a non-null entry of
`table.seats()`). -/
structure PlayerSeat where
  totalChips : Nat
  stack : Nat
  betSize : Nat
deriving DecidableEq, Repr

/-- One iteration of the elimination loop in `runGameLoop` (lines
713–720): if seat `i` is occupied with a zero stack, `standUp(i)`
(the entry becomes `null`). -/
def standUpStep (seats : List (Option PlayerSeat)) (i : Nat) :
    List (Option PlayerSeat) :=
  match seats.getD i none with
  | some seat => if seat.stack = 0 then seats.set i none else seats
  | none => seats

/-- The elimination loop of `runGameLoop` (lines 713–720), iterating
`standUpStep` over the configured player indices. -/
def standUpEliminated (playerIndices : List Nat)
    (seats : List (Option PlayerSeat)) : List (Option PlayerSeat) :=
  playerIndices.foldl standUpStep seats

/-- The player-state update of `updateGameState` (lines 876–887): a player
with an occupied seat copies the seat's stack/chips/bet and is marked
eliminated exactly when the seat's stack is 0; a player without a seat is
marked eliminated. -/
def updatePlayers (players : List PlayerState)
    (seats : List (Option PlayerSeat)) : List PlayerState :=
  players.map fun p =>
    match seats.getD p.index none with
    | some seat =>
        { p with
          stack := seat.stack
          totalChips := seat.totalChips
          betSize := seat.betSize
          isEliminated := seat.stack == 0 }
    | none => { p with isEliminated := true }

/-! ## Helper lemmas about `validateDecision` -/

/-- When the proposed action is illegal, `validateDecision` returns the
substituted first legal action with the defaulted amount and the appended
note. -/
theorem validateDecision_of_not_mem (d : AIDecision) (la : LegalActionsInfo)
    (h : d.action ∉ la.actions) :
    validateDecision d la =
      { action := la.actions.headD PokerAction.fold
        amount :=
          if (la.actions.headD PokerAction.fold = PokerAction.bet ∨
              la.actions.headD PokerAction.fold = PokerAction.raise)
              ∧ la.minBet.isSome then
            la.minBet
          else
            none
        reasoning :=
          d.reasoning ++ " [Action " ++ d.action.toName ++
            " was invalid, using " ++
            (la.actions.headD PokerAction.fold).toName ++ "]" } := by
  simp only [validateDecision, if_pos h]

/-- When the proposed action is legal, `validateDecision` returns either
the decision itself or the decision with only its amount replaced. -/
theorem validateDecision_of_mem (d : AIDecision) (la : LegalActionsInfo)
    (h : d.action ∈ la.actions) :
    validateDecision d la = d ∨
      ∃ a : Int, validateDecision d la = { d with amount := some a } := by
  obtain ⟨act, amt, rsn⟩ := d
  obtain ⟨acts, mn, mx⟩ := la
  simp only [validateDecision, if_neg (not_not_intro h)]
  split
  · cases amt with
    | none =>
        cases mn with
        | none => exact Or.inl rfl
        | some m => exact Or.inr ⟨m, rfl⟩
    | some a =>
        cases mn with
        | some m =>
            by_cases hlt : a < m
            · exact Or.inr ⟨m, by simp [hlt]⟩
            · cases mx with
              | some mxv =>
                  by_cases hgt : a > mxv
                  · exact Or.inr ⟨mxv, by simp [hlt, hgt]⟩
                  · refine Or.inl ?_
                    simp [hlt, hgt]
              | none => exact Or.inl (by simp [hlt])
        | none =>
            cases mx with
            | some mxv =>
                by_cases hgt : a > mxv
                · exact Or.inr ⟨mxv, by simp [hgt]⟩
                · exact Or.inl (by simp [hgt])
            | none => exact Or.inl rfl
  · exact Or.inl rfl

/-- The action returned by `validateDecision`: the proposed action when
legal, the first legal action (or `fold` for an empty set) otherwise. -/
theorem validateDecision_action (d : AIDecision) (la : LegalActionsInfo) :
    (validateDecision d la).action =
      if d.action ∈ la.actions then d.action
      else la.actions.headD PokerAction.fold := by
  by_cases h : d.action ∈ la.actions
  · rcases validateDecision_of_mem d la h with heq | ⟨a, heq⟩ <;>
      simp [heq, h]
  · simp [validateDecision_of_not_mem d la h, h]

/-! ## Claim theorems -/

/-- C6: `createAIDecision` never propagates an agent failure to its
caller: for every failure it returns normally with the deterministic
fallback decision — `check` when check is in the context's legal action
set, `fold` otherwise, no amount, and the rationale tagged as a fallback
with the error message — and it appends exactly that decision to the
decision log. -/
theorem createAIDecision_failure_returns_fallback_and_logs
    (playerIndex : Nat) (context : AIContext) (message : String)
    (log : List AILogEntry) :
    (createAIDecision playerIndex context (.failure message) log).1 =
      { action :=
          if PokerAction.check ∈ context.legalActions.actions then
            PokerAction.check
          else
            PokerAction.fold
        amount := none
        reasoning :=
          "Error occurred, falling back to safe action: " ++ message } ∧
    (createAIDecision playerIndex context (.failure message) log).2 =
      log ++ [{ handNumber := context.handNumber
                playerIndex := playerIndex
                decision :=
                  (createAIDecision playerIndex context
                    (.failure message) log).1 }] := by
  exact ⟨rfl, rfl⟩

/-- C1: at the captured pot state of a fold-out hand in which the hand-
ending fold could no longer be reflected in `trackedPots` (the folding
seat 1 is still listed as eligible), the recorded fold-out winner entry
carries ranking 0 and description `"Fold Win"` as the claim states, but
its `amountWon` is `⌊40 / 2⌋ = 20`, not the full captured pot total
`totalPot = 40` that the claim (and the code's own log line
`Player 0 wins 40 (everyone else folded)`) requires. -/
theorem foldOut_amountWon_is_not_totalPot :
    totalPot [⟨40, [0, 1]⟩] = 40 ∧
    foldOutWinners [⟨40, [0, 1]⟩] 0 =
      [{ playerIndex := 0, handRanking := 0, handDescription := "Fold Win",
         amountWon := 20 }] := by
  exact ⟨rfl, rfl⟩

/-- C4: at a showdown with one captured pot of size 30 whose eligible set
is `[0, 1, 2]` and whose sole showdown winner is seat 0 (ranking 5, a
flush), the recorded winnings for the pot's winner set `W = {0}` sum to
`⌊30 / 3⌋ = 10`: the first claimed inequality `10 ≤ 30` holds, but the
remainder `30 − 10 = 20` is not smaller than `|W| = 1` — the code divides
by the pot's eligible-player count, not by its winner count, discarding
20 chips. -/
theorem showdown_split_remainder_not_below_winner_count :
    showdownWinners [⟨30, [0, 1, 2]⟩] [(0, 5)] =
      [{ playerIndex := 0, handRanking := 5, handDescription := "Flush",
         amountWon := 10 }] ∧
    ((showdownWinners [⟨30, [0, 1, 2]⟩] [(0, 5)]).foldl
        (fun s w => s + w.amountWon) 0 = 10) ∧
    ¬((30 : Nat) - 10 <
        (showdownWinners [⟨30, [0, 1, 2]⟩] [(0, 5)]).length) := by
  refine ⟨rfl, rfl, by decide⟩

/-- C5 counterexample: with a single configured blind level
`{10, 20, handsUntilIncrease := 1}`, the blind state reached after one
hand (`handsUntilNext = 0`) is mapped by `checkBlindIncrease` to a state
whose `handsUntilNext` is reset to the configured level's
`handsUntilIncrease = 1` while `currentLevel` stays 0 — contradicting the
claim that `checkBlindIncrease` never returns a reset `handsUntilNext`
together with an unchanged `currentLevel`. -/
theorem checkBlindIncrease_resets_without_level_change :
    let config : GameConfig :=
      { initialChips := 500
        blindStructure := [⟨10, 20, 1⟩]
        players := [⟨0, "m0"⟩, ⟨1, "m1"⟩] }
    let reached := endOfHandBlindUpdate (initialBlindState config)
    reached.handsUntilNext = 0 ∧
    checkBlindIncrease config reached =
      { smallBlind := 10, bigBlind := 20, currentLevel := 0,
        handsUntilNext := 1 } ∧
    (checkBlindIncrease config reached).currentLevel = reached.currentLevel ∧
    (checkBlindIncrease config reached).handsUntilNext ≠
      reached.handsUntilNext := by
  refine ⟨rfl, rfl, rfl, by decide⟩

/-- C5 amended: `checkBlindIncrease` changes `handsUntilNext` with an
unchanged `currentLevel` only in the final-level clamp case.  Below the
final level (`currentLevel + 1 < ` number of configured levels) any
change of `handsUntilNext` comes with `currentLevel` advancing by one;
in the clamp case the level and the blind amounts are unchanged. -/
theorem checkBlindIncrease_reset_below_final_level (config : GameConfig)
    (b : BlindState) :
    ((checkBlindIncrease config b).handsUntilNext ≠ b.handsUntilNext →
      b.currentLevel + 1 < config.blindStructure.length →
      (checkBlindIncrease config b).currentLevel = b.currentLevel + 1) ∧
    (config.blindStructure.length ≤ b.currentLevel + 1 →
      (checkBlindIncrease config b).currentLevel = b.currentLevel ∧
      (checkBlindIncrease config b).smallBlind = b.smallBlind ∧
      (checkBlindIncrease config b).bigBlind = b.bigBlind) := by
  by_cases h1 : 0 < b.handsUntilNext
  · simp [checkBlindIncrease, h1]
  · by_cases h2 : config.blindStructure.length ≤ b.currentLevel + 1
    · constructor
      · intro _ hlt
        omega
      · intro _
        simp [checkBlindIncrease, h1, h2]
    · constructor
      · intro _ _
        simp [checkBlindIncrease, h1, h2]
      · intro h
        exact absurd h h2

/-- C5 amended, witness: with two configured levels and the counter
exhausted at level 0, the blinds advance to level 1. -/
theorem checkBlindIncrease_reset_below_final_level_witness :
    (checkBlindIncrease
        { initialChips := 500
          blindStructure := [⟨10, 20, 2⟩, ⟨20, 40, 3⟩]
          players := [⟨0, "m0"⟩, ⟨1, "m1"⟩] }
        { smallBlind := 10, bigBlind := 20, currentLevel := 0,
          handsUntilNext := 0 }).currentLevel = 0 + 1 :=
  (checkBlindIncrease_reset_below_final_level
    { initialChips := 500
      blindStructure := [⟨10, 20, 2⟩, ⟨20, 40, 3⟩]
      players := [⟨0, "m0"⟩, ⟨1, "m1"⟩] }
    { smallBlind := 10, bigBlind := 20, currentLevel := 0,
      handsUntilNext := 0 }).1 (by decide) (by decide)

/-- C9 counterexample: clamping an out-of-bounds raise amount (5 below
`minBet = 20`) alters the proposed decision but leaves the rationale
unchanged — no explanatory note is appended. -/
theorem validateDecision_clamp_appends_no_note :
    validateDecision { action := .raise, amount := some 5, reasoning := "r" }
        { actions := [.fold, .call, .raise], minBet := some 20,
          maxBet := some 100 } =
      { action := .raise, amount := some 20, reasoning := "r" } ∧
    (validateDecision { action := .raise, amount := some 5, reasoning := "r" }
        { actions := [.fold, .call, .raise], minBet := some 20,
          maxBet := some 100 }).reasoning =
      ({ action := .raise, amount := some 5,
         reasoning := "r" } : AIDecision).reasoning ∧
    validateDecision { action := .raise, amount := some 5, reasoning := "r" }
        { actions := [.fold, .call, .raise], minBet := some 20,
          maxBet := some 100 } ≠
      { action := .raise, amount := some 5, reasoning := "r" } := by
  refine ⟨rfl, rfl, fun h => absurd (congrArg AIDecision.amount h) (by decide)⟩

/-- C9 amended: `validateDecision` appends an explanatory note to the
rationale exactly when it substitutes an illegal proposed action; amount
repairs (defaulting a missing amount, clamping to `minBet`/`maxBet`)
change only the amount and leave the rationale unchanged. -/
theorem validateDecision_note_iff_action_substituted
    (d : AIDecision) (la : LegalActionsInfo) :
    (d.action ∉ la.actions →
      (validateDecision d la).reasoning =
        d.reasoning ++ " [Action " ++ d.action.toName ++
          " was invalid, using " ++
          (la.actions.headD PokerAction.fold).toName ++ "]") ∧
    (d.action ∈ la.actions →
      (validateDecision d la).reasoning = d.reasoning) := by
  constructor
  · intro h
    simp [validateDecision_of_not_mem d la h]
  · intro h
    rcases validateDecision_of_mem d la h with heq | ⟨a, heq⟩ <;> simp [heq]

/-- C9 amended, witness: an illegal `raise` substituted by `fold` gets the
note; a legal clamped `raise` keeps its rationale. -/
theorem validateDecision_note_iff_action_substituted_witness :
    (validateDecision { action := .raise, amount := some 5, reasoning := "r" }
        { actions := [.fold, .check], minBet := none,
          maxBet := none }).reasoning =
      "r" ++ " [Action " ++ PokerAction.raise.toName ++
        " was invalid, using " ++ PokerAction.fold.toName ++ "]" :=
  (validateDecision_note_iff_action_substituted
    { action := .raise, amount := some 5, reasoning := "r" }
    { actions := [.fold, .check], minBet := none, maxBet := none }).1
    (by decide)

/-- C10 counterexample: a legal `bet` carrying an amount while `minBet` is
undefined is not returned unchanged — with `maxBet = 50` defined and an
amount of 100, the amount is clamped down to 50 although the claim's
second disjunct ("carries an amount while minBet is undefined") says the
decision is returned as-is. -/
theorem validateDecision_not_identity_when_minBet_undefined :
    ({ action := .bet, amount := some 100,
       reasoning := "r" } : AIDecision).action ∈
      ({ actions := [.bet], minBet := none,
         maxBet := some 50 } : LegalActionsInfo).actions ∧
    ({ actions := [.bet], minBet := none,
       maxBet := some 50 } : LegalActionsInfo).minBet = none ∧
    validateDecision { action := .bet, amount := some 100, reasoning := "r" }
        { actions := [.bet], minBet := none, maxBet := some 50 } =
      { action := .bet, amount := some 50, reasoning := "r" } ∧
    validateDecision { action := .bet, amount := some 100, reasoning := "r" }
        { actions := [.bet], minBet := none, maxBet := some 50 } ≠
      { action := .bet, amount := some 100, reasoning := "r" } := by
  refine ⟨by decide, rfl, rfl,
    fun h => absurd (congrArg AIDecision.amount h) (by decide)⟩

/-- C10 amended: `validateDecision` is the identity on already-legal,
in-bounds input — a decision whose action is legal and which, when the
action is bet/raise, carries an amount satisfying whichever of
`minBet`/`maxBet` are defined, or carries no amount while `minBet` is
undefined, is returned unchanged. -/
theorem validateDecision_identity_on_legal_in_bounds
    (d : AIDecision) (la : LegalActionsInfo)
    (hmem : d.action ∈ la.actions)
    (hbr : d.action = PokerAction.bet ∨ d.action = PokerAction.raise →
      (d.amount = none → la.minBet = none) ∧
      (∀ a m, d.amount = some a → la.minBet = some m → m ≤ a) ∧
      (∀ a mx, d.amount = some a → la.maxBet = some mx → a ≤ mx)) :
    validateDecision d la = d := by
  by_cases hact : d.action = PokerAction.bet ∨ d.action = PokerAction.raise
  · obtain ⟨h1, h2, h3⟩ := hbr hact
    rcases hamt : d.amount with _ | a
    · have hmn := h1 hamt
      simp [validateDecision, hmem, hact, hamt, hmn]
    · rcases hmn : la.minBet with _ | m
      · rcases hmx : la.maxBet with _ | mxv
        · simp [validateDecision, hmem, hact, hamt, hmn, hmx]
        · have hx := h3 a mxv hamt hmx
          simp [validateDecision, hmem, hact, hamt, hmn, hmx, not_lt.mpr hx]
      · have hm := h2 a m hamt hmn
        rcases hmx : la.maxBet with _ | mxv
        · simp [validateDecision, hmem, hact, hamt, hmn, hmx, not_lt.mpr hm]
        · have hx := h3 a mxv hamt hmx
          simp [validateDecision, hmem, hact, hamt, hmn, hmx,
            not_lt.mpr hm, not_lt.mpr hx]
  · simp [validateDecision, hmem, hact]

/-- C10 amended, witness: a legal raise of 30 within bounds [20, 100] is
returned unchanged. -/
theorem validateDecision_identity_on_legal_in_bounds_witness :
    validateDecision { action := .raise, amount := some 30, reasoning := "r" }
        { actions := [.fold, .call, .raise], minBet := some 20,
          maxBet := some 100 } =
      { action := .raise, amount := some 30, reasoning := "r" } :=
  validateDecision_identity_on_legal_in_bounds
    { action := .raise, amount := some 30, reasoning := "r" }
    { actions := [.fold, .call, .raise], minBet := some 20, maxBet := some 100 }
    (by decide)
    (by
      intro _
      constructor
      · intro h
        exact absurd h (by decide)
      constructor
      · intro a m ha hm
        simp only [Option.some.injEq] at ha hm
        omega
      · intro a mx ha hx
        simp only [Option.some.injEq] at ha hx
        omega)

/-- The default head of a non-empty list is a member. -/
theorem headD_mem_of_ne_nil {α : Type} (l : List α) (dflt : α)
    (hne : l ≠ []) : l.headD dflt ∈ l := by
  cases l with
  | nil => exact absurd rfl hne
  | cons x xs => exact List.mem_cons_self x xs

/-- C2: `validateDecision` is total and never rejects.  With a non-empty
legal set the returned action is legal; an illegal proposed action is
replaced by the first legal action, whose amount defaults to `minBet`
when that action is bet/raise; and whenever both bounds are given (and
coherent, `minBet ≤ maxBet`), every returned bet/raise decision carries
an amount in `[minBet, maxBet]` inclusive. -/
theorem validateDecision_legal_and_in_bounds (d : AIDecision)
    (la : LegalActionsInfo) (hne : la.actions ≠ []) :
    (validateDecision d la).action ∈ la.actions ∧
    (d.action ∉ la.actions →
      (validateDecision d la).action = la.actions.headD PokerAction.fold ∧
      ((la.actions.headD PokerAction.fold = PokerAction.bet ∨
          la.actions.headD PokerAction.fold = PokerAction.raise) →
        (validateDecision d la).amount = la.minBet)) ∧
    (∀ m mx : Int, la.minBet = some m → la.maxBet = some mx → m ≤ mx →
      ((validateDecision d la).action = PokerAction.bet ∨
        (validateDecision d la).action = PokerAction.raise) →
      ∃ a : Int, (validateDecision d la).amount = some a ∧ m ≤ a ∧ a ≤ mx) := by
  refine ⟨?_, ?_, ?_⟩
  · rw [validateDecision_action]
    by_cases h : d.action ∈ la.actions
    · simp [h]
    · simpa [h] using headD_mem_of_ne_nil la.actions PokerAction.fold hne
  · intro h
    rw [validateDecision_of_not_mem d la h]
    refine ⟨rfl, fun hbrf => ?_⟩
    rcases hmn : la.minBet with _ | m
    · simp [hmn]
    · simp only [hmn]
      rw [if_pos ⟨hbrf, rfl⟩]
  · intro m mx hm hx hle hbr
    by_cases hmem : d.action ∈ la.actions
    · have hact : d.action = PokerAction.bet ∨ d.action = PokerAction.raise := by
        rw [validateDecision_action] at hbr
        simpa [hmem] using hbr
      rcases hamt : d.amount with _ | a
      · exact ⟨m, by simp [validateDecision, hmem, hact, hamt, hm], le_refl m, hle⟩
      · by_cases hlt : a < m
        · exact ⟨m, by simp [validateDecision, hmem, hact, hamt, hm, hlt],
            le_refl m, hle⟩
        · by_cases hgt : mx < a
          · exact ⟨mx,
              by simp [validateDecision, hmem, hact, hamt, hm, hx, hlt, hgt],
              hle, le_refl mx⟩
          · exact ⟨a,
              by simp [validateDecision, hmem, hact, hamt, hm, hx, hlt, hgt],
              by omega, by omega⟩
    · rw [validateDecision_of_not_mem d la hmem] at hbr ⊢
      dsimp only at hbr ⊢
      refine ⟨m, ?_, le_refl m, hle⟩
      rw [hm]
      exact if_pos ⟨hbr, rfl⟩

/-- C2 witness: a raise of 5 against bounds [20, 100] comes back with an
in-range amount. -/
theorem validateDecision_legal_and_in_bounds_witness :
    ∃ a : Int,
      (validateDecision { action := .raise, amount := some 5, reasoning := "r" }
          { actions := [.fold, .call, .raise], minBet := some 20,
            maxBet := some 100 }).amount = some a ∧ 20 ≤ a ∧ a ≤ 100 :=
  (validateDecision_legal_and_in_bounds
    { action := .raise, amount := some 5, reasoning := "r" }
    { actions := [.fold, .call, .raise], minBet := some 20, maxBet := some 100 }
    (by decide)).2.2 20 100 rfl rfl (by decide) (Or.inr (by decide))

/-- Under the raise cap, the action the conductor submits to the engine
is never bet or raise, and a validated bet/raise is downgraded to `call`
when call is legal and to `check` otherwise. -/
theorem conductorStep_cap (c : Nat) (legal : LegalActionsInfo)
    (d : AIDecision) (hc : MAX_RAISES_PER_ROUND ≤ c) :
    (conductorStep c legal d).1.action ≠ PokerAction.bet ∧
    (conductorStep c legal d).1.action ≠ PokerAction.raise ∧
    ((validateDecision d legal).action = PokerAction.raise ∨
      (validateDecision d legal).action = PokerAction.bet →
      (conductorStep c legal d).1.action =
        if PokerAction.call ∈ legal.actions then PokerAction.call
        else PokerAction.check) := by
  by_cases hX : (validateDecision d legal).action = PokerAction.raise ∨
      (validateDecision d legal).action = PokerAction.bet
  · have hcond :
        (conductorStep c legal d).1.action =
          if PokerAction.call ∈ legal.actions then PokerAction.call
          else PokerAction.check := by
      simp only [conductorStep, if_pos (And.intro hc hX)]
    refine ⟨?_, ?_, fun _ => hcond⟩ <;>
      · rw [hcond]
        by_cases hcall : PokerAction.call ∈ legal.actions <;> simp [hcall]
  · have hnc : ¬(MAX_RAISES_PER_ROUND ≤ c ∧
        ((validateDecision d legal).action = PokerAction.raise ∨
          (validateDecision d legal).action = PokerAction.bet)) :=
      fun h => hX h.2
    have hcond : (conductorStep c legal d).1 = validateDecision d legal := by
      simp only [conductorStep, if_neg hnc]
    have hX' := hX
    push_neg at hX'
    exact ⟨hcond ▸ hX'.2, hcond ▸ hX'.1, fun h => absurd h hX⟩

/-- `conductorStep` never decreases the per-round raise counter. -/
theorem conductorStep_counter_mono (c : Nat) (legal : LegalActionsInfo)
    (d : AIDecision) : c ≤ (conductorStep c legal d).2 := by
  have key : ∀ x : AIDecision,
      c ≤ if x.action = PokerAction.raise ∨ x.action = PokerAction.bet
        then c + 1 else c := by
    intro x
    split <;> omega
  simp only [conductorStep]
  exact key _

/-- C3: once the per-round raise counter has reached
`MAX_RAISES_PER_ROUND`, no action submitted to the engine for the
remainder of that betting round is bet or raise; a validated bet/raise
under the cap is downgraded to `call` when call is legal and to `check`
otherwise; and each betting round of a hand starts with the counter reset
to 0. -/
theorem raiseCap_no_bet_or_raise_after_cap :
    (∀ (c : Nat) (steps : List (LegalActionsInfo × AIDecision)),
      MAX_RAISES_PER_ROUND ≤ c →
      ∀ p ∈ runRound c steps,
        p.1 ≠ PokerAction.bet ∧ p.1 ≠ PokerAction.raise) ∧
    (∀ (c : Nat) (legal : LegalActionsInfo) (d : AIDecision),
      MAX_RAISES_PER_ROUND ≤ c →
      ((validateDecision d legal).action = PokerAction.raise ∨
        (validateDecision d legal).action = PokerAction.bet) →
      (conductorStep c legal d).1.action =
        if PokerAction.call ∈ legal.actions then PokerAction.call
        else PokerAction.check) ∧
    (∀ rounds : List (List (LegalActionsInfo × AIDecision)),
      runHandRounds rounds = rounds.map (runRound 0)) := by
  refine ⟨?_, fun c legal d hc => (conductorStep_cap c legal d hc).2.2,
    fun _ => rfl⟩
  intro c steps
  induction steps generalizing c with
  | nil => intro _ p hp; exact absurd hp (List.not_mem_nil p)
  | cons s rest ih =>
      intro hc p hp
      obtain ⟨legal, d⟩ := s
      rcases List.mem_cons.mp hp with heq | hmem
      · subst heq
        exact ⟨(conductorStep_cap c legal d hc).1,
          (conductorStep_cap c legal d hc).2.1⟩
      · exact ih (conductorStep c legal d).2
          (le_trans hc (conductorStep_counter_mono c legal d)) p hmem

/-- C3 witness: with the counter at the cap, a raise attempt is submitted
as `call` and the recorded trace entry is not bet/raise. -/
theorem raiseCap_no_bet_or_raise_after_cap_witness :
    (PokerAction.call, 2).1 ≠ PokerAction.bet ∧
    (PokerAction.call, 2).1 ≠ PokerAction.raise :=
  raiseCap_no_bet_or_raise_after_cap.1 2
    [({ actions := [.fold, .call, .raise], minBet := some 20,
        maxBet := some 100 },
      { action := .raise, amount := some 40, reasoning := "" })]
    (by decide) (PokerAction.call, 2) (by decide)

/-- C7: for a persisted `in_progress` run (which, by the persistence step,
marks every zero-stack player eliminated) and no game currently running,
`resumeGame` seats exactly the non-eliminated players at their persisted
stacks, restores the persisted blinds, and starts at `currentHandNumber`
when the persisted hand-in-progress flag is truthy, at
`currentHandNumber + 1` otherwise. -/
theorem resumeGame_reseats_persisted_players (s : GameState)
    (hstatus : s.status = GameStatus.in_progress)
    (hinv : ∀ p ∈ s.players, p.stack = 0 → p.isEliminated = true) :
    resumeGame false (some s) =
      some
        { seatedPlayers :=
            (s.players.filter fun p => !p.isEliminated).map
              fun p => (p.index, p.stack)
          tableSmallBlind := s.blinds.smallBlind
          tableBigBlind := s.blinds.bigBlind
          startingHand :=
            if s.handInProgress.getD false then s.currentHandNumber
            else s.currentHandNumber + 1 } := by
  have hfilter :
      (s.players.filter fun p => !p.isEliminated && decide (0 < p.stack)) =
        s.players.filter fun p => !p.isEliminated := by
    apply List.filter_congr
    intro p hp
    cases hel : p.isEliminated with
    | false =>
        have hstack : p.stack ≠ 0 := fun h0 => by
          have hcontra := hinv p hp h0
          rw [hel] at hcontra
          exact Bool.false_ne_true hcontra
        simp [hel, Nat.pos_of_ne_zero hstack]
    | true => simp [hel]
  simp only [resumeGame, Bool.false_eq_true, if_false, hstatus, ne_eq,
    not_true_eq_false, ite_false, hfilter]

/-- C7 witness: a persisted two-player run with one eliminated seat
resumes by reseating only seat 0 at its persisted stack, at the
interrupted hand number. -/
theorem resumeGame_reseats_persisted_players_witness :
    resumeGame false
        (some
          { status := GameStatus.in_progress
            currentHandNumber := 7
            players :=
              [{ index := 0, model := "a", stack := 300, totalChips := 300,
                 betSize := 0, isEliminated := false, isActive := true },
               { index := 1, model := "b", stack := 0, totalChips := 0,
                 betSize := 0, isEliminated := true, isActive := false }]
            blinds := { smallBlind := 20, bigBlind := 40, currentLevel := 1,
                        handsUntilNext := 3 }
            buttonPosition := 0
            winner := none
            handInProgress := some true }) =
      some
        { seatedPlayers := [(0, 300)]
          tableSmallBlind := 20
          tableBigBlind := 40
          startingHand := 7 } :=
  resumeGame_reseats_persisted_players
    { status := GameStatus.in_progress
      currentHandNumber := 7
      players :=
        [{ index := 0, model := "a", stack := 300, totalChips := 300,
           betSize := 0, isEliminated := false, isActive := true },
         { index := 1, model := "b", stack := 0, totalChips := 0,
           betSize := 0, isEliminated := true, isActive := false }]
      blinds := { smallBlind := 20, bigBlind := 40, currentLevel := 1,
                  handsUntilNext := 3 }
      buttonPosition := 0
      winner := none
      handInProgress := some true }
    rfl (by decide)

/-- An occupied `getD` read is within the list's length. -/
theorem getD_some_lt_length {α : Type} (l : List (Option α)) (i : Nat)
    (x : α) (h : l.getD i none = some x) : i < l.length := by
  by_contra hge
  push_neg at hge
  rw [List.getD_eq_getElem?_getD, List.getElem?_eq_none hge] at h
  exact Option.noConfusion h

/-- `standUpStep` never creates an occupied entry: an entry occupied after
the step was occupied by the same seat before it. -/
theorem standUpStep_getD_some (seats : List (Option PlayerSeat)) (j i : Nat)
    (seat : PlayerSeat)
    (h : (standUpStep seats j).getD i none = some seat) :
    seats.getD i none = some seat := by
  unfold standUpStep at h
  rcases h0 : seats.getD j none with _ | s0
  · rw [h0] at h
    exact h
  · rw [h0] at h
    dsimp only at h
    by_cases hz : s0.stack = 0
    · rw [if_pos hz] at h
      by_cases hij : i = j
      · subst hij
        exfalso
        have hlen : i < seats.length := getD_some_lt_length seats i s0 h0
        rw [List.getD_eq_getElem?_getD, List.getElem?_set_self hlen] at h
        exact Option.noConfusion h
      · rw [List.getD_eq_getElem?_getD,
          List.getElem?_set_ne (Ne.symm hij)] at h
        rwa [List.getD_eq_getElem?_getD]
    · rwa [if_neg hz] at h

/-- The elimination loop never creates an occupied entry. -/
theorem standUpEliminated_getD_some (idxs : List Nat)
    (seats : List (Option PlayerSeat)) (i : Nat) (seat : PlayerSeat)
    (h : (standUpEliminated idxs seats).getD i none = some seat) :
    seats.getD i none = some seat := by
  induction idxs generalizing seats with
  | nil => exact h
  | cons j rest ih =>
      exact standUpStep_getD_some seats j i seat (ih (standUpStep seats j) h)

/-- After the elimination loop has visited an index, any seat still
occupying that index has a non-zero stack. -/
theorem standUpEliminated_no_zero (idxs : List Nat)
    (seats : List (Option PlayerSeat)) (i : Nat) (hmem : i ∈ idxs)
    (seat : PlayerSeat)
    (h : (standUpEliminated idxs seats).getD i none = some seat) :
    seat.stack ≠ 0 := by
  induction idxs generalizing seats with
  | nil => exact absurd hmem (List.not_mem_nil i)
  | cons j rest ih =>
      rcases List.mem_cons.mp hmem with heq | hmem'
      · subst heq
        have h1 : (standUpStep seats i).getD i none = some seat :=
          standUpEliminated_getD_some rest (standUpStep seats i) i seat h
        unfold standUpStep at h1
        rcases h0 : seats.getD i none with _ | s0
        · rw [h0] at h1
          dsimp only at h1
          rw [h0] at h1
          exact Option.noConfusion h1
        · rw [h0] at h1
          dsimp only at h1
          by_cases hz : s0.stack = 0
          · exfalso
            rw [if_pos hz] at h1
            have hlen : i < seats.length := getD_some_lt_length seats i s0 h0
            rw [List.getD_eq_getElem?_getD, List.getElem?_set_self hlen] at h1
            exact Option.noConfusion h1
          · rw [if_neg hz, h0] at h1
            cases h1
            exact hz
      · exact ih (standUpStep seats j) hmem' h

/-- Each element of `updatePlayers players seats` arises from a player of
`players`, either updated from its occupied seat or marked eliminated for
a missing seat. -/
theorem updatePlayers_mem (players : List PlayerState)
    (seats : List (Option PlayerSeat)) (p : PlayerState)
    (hp : p ∈ updatePlayers players seats) :
    ∃ q, q ∈ players ∧
      ((∃ seat, seats.getD q.index none = some seat ∧
          p = { q with
                stack := seat.stack
                totalChips := seat.totalChips
                betSize := seat.betSize
                isEliminated := seat.stack == 0 }) ∨
        (seats.getD q.index none = none ∧
          p = { q with isEliminated := true })) := by
  rw [updatePlayers, List.mem_map] at hp
  obtain ⟨q, hq, hpe⟩ := hp
  refine ⟨q, hq, ?_⟩
  rcases hsq : seats.getD q.index none with _ | seat
  · refine Or.inr ⟨rfl, ?_⟩
    rw [← hpe]
    rw [hsq]
  · refine Or.inl ⟨seat, rfl, ?_⟩
    rw [← hpe]
    rw [hsq]

/-- C8: after a hand, the elimination loop followed by the persistence
update marks every zero-stack player eliminated; every player marked
eliminated occupies no seat in the post-stand-up seating (so is absent
from the next hand's rotation); and no configured index retains a
zero-stack seat.  The hypothesis states that every occupied zero-stack
seat index belongs to the configured player list, which `runGameLoop`
iterates over. -/
theorem elimination_after_hand (players : List PlayerState)
    (seats : List (Option PlayerSeat)) (playerIndices : List Nat)
    (hcover : ∀ i seat, seats.getD i none = some seat → seat.stack = 0 →
      i ∈ playerIndices) :
    (∀ p ∈ updatePlayers players (standUpEliminated playerIndices seats),
      p.stack = 0 → p.isEliminated = true) ∧
    (∀ p ∈ updatePlayers players (standUpEliminated playerIndices seats),
      p.isEliminated = true →
      (standUpEliminated playerIndices seats).getD p.index none = none) ∧
    (∀ i ∈ playerIndices, ∀ seat,
      (standUpEliminated playerIndices seats).getD i none = some seat →
      seat.stack ≠ 0) := by
  refine ⟨?_, ?_, ?_⟩
  · intro p hp hstack
    obtain ⟨q, _, hcase⟩ := updatePlayers_mem _ _ p hp
    rcases hcase with ⟨seat, hsq, rfl⟩ | ⟨hsq, rfl⟩
    · have hz : seat.stack = 0 := by simpa using hstack
      simpa using hz
    · rfl
  · intro p hp hel
    obtain ⟨q, _, hcase⟩ := updatePlayers_mem _ _ p hp
    rcases hcase with ⟨seat, hsq, rfl⟩ | ⟨hsq, rfl⟩
    · exfalso
      have hz : seat.stack = 0 := by simpa using hel
      have horig : seats.getD q.index none = some seat :=
        standUpEliminated_getD_some playerIndices seats q.index seat hsq
      have hmem : q.index ∈ playerIndices := hcover q.index seat horig hz
      exact standUpEliminated_no_zero playerIndices seats q.index hmem
        seat hsq hz
    · simpa using hsq
  · intro i hi seat h
    exact standUpEliminated_no_zero playerIndices seats i hi seat h

/-- C8 witness: with seat 1 busted (stack 0), after the elimination loop
seat 1 is vacated, and the player record marked eliminated by
`updatePlayers` indeed has no seat. -/
theorem elimination_after_hand_witness :
    (standUpEliminated [0, 1]
        [some ⟨500, 500, 0⟩, some ⟨0, 0, 0⟩]).getD 1 none = none :=
  (elimination_after_hand
      [⟨0, "a", 500, 500, 0, false, true⟩,
       ⟨1, "b", 100, 100, 0, false, false⟩]
      [some ⟨500, 500, 0⟩, some ⟨0, 0, 0⟩] [0, 1]
      (fun i seat h _ => by
        have hlen := getD_some_lt_length
          [some (⟨500, 500, 0⟩ : PlayerSeat), some ⟨0, 0, 0⟩] i seat h
        simp at hlen
        interval_cases i <;> decide)).2.1
    ⟨1, "b", 100, 100, 0, true, false⟩ (by decide) (by decide)

end PokerWars
